import Mathlib

/-! Verification of the Amazon reviews dashboard (src/app.py): a shallow
embedding of its data model, aggregator, attribute extraction, override
loader, identifier normalization and batch loop, with theorems checking the
specification's claims against the embedded code. -/

/-- One row of the output table (the dictionaries appended to `results` in
app.py, lines 129-154): star-bucket counts are `none` in the two failure
branches and populated counts in the success branch. AverageRating is a
nullable rational; TotalReviews a nullable non-negative integer, as in the
spec's data model. -/
structure ProductRecord where
  asin : String
  design : Option String
  size : Option String
  averageRating : Option ℚ
  totalReviews : Option ℕ
  fiveStar : Option ℕ
  fourStar : Option ℕ
  threeStar : Option ℕ
  twoStar : Option ℕ
  oneStar : Option ℕ
deriving DecidableEq

/-- Python's builtin round-to-integer: nearest integer, ties to even
(banker's rounding), the integer core of `round(x, 3)` at app.py lines 178
and 185. -/
def roundHalfEven (x : ℚ) : ℤ :=
  if x - ⌊x⌋ < 1/2 then ⌊x⌋
  else if 1/2 < x - ⌊x⌋ then ⌊x⌋ + 1
  else if ⌊x⌋ % 2 = 0 then ⌊x⌋ else ⌊x⌋ + 1

/-- Python's `round(q, 3)`: round to 3 decimal places. -/
def round3 (q : ℚ) : ℚ := (roundHalfEven (q * 1000) : ℚ) / 1000

/-- Pandas `Series.fillna(0)` on the nullable rating column. -/
def fillnaQ : Option ℚ → ℚ
  | none => 0
  | some q => q

/-- Pandas `Series.fillna(0)` on the nullable review-count column. -/
def fillnaN : Option ℕ → ℕ
  | none => 0
  | some n => n

/-- The column `df['Average Rating'].dropna()`: the non-null AverageRating
values of the record list, in order. -/
def ratings (rs : List ProductRecord) : List ℚ :=
  rs.filterMap (fun r => r.averageRating)

/-- The column `df['Total Reviews'].dropna()`. -/
def reviewCounts (rs : List ProductRecord) : List ℕ :=
  rs.filterMap (fun r => r.totalReviews)

/-- App.py lines 176-178: `round(df['Average Rating'].dropna().mean(), 3)` when
the dropna'd column is nonempty, else `None`. -/
def unweighted_mean (rs : List ProductRecord) : Option ℚ :=
  if 0 < (ratings rs).length then
    some (round3 ((ratings rs).sum / ((ratings rs).length : ℚ)))
  else none

/-- App.py line 182: `int(df['Total Reviews'].dropna().sum()) if
df['Total Reviews'].dropna().size > 0 else 0`. -/
def total_reviews_sum (rs : List ProductRecord) : ℕ :=
  if 0 < (reviewCounts rs).length then (reviewCounts rs).sum else 0

/-- App.py line 184: `(df['Average Rating'].fillna(0) * df['Total Reviews'].fillna(0)).sum()`. -/
def weighted_val (rs : List ProductRecord) : ℚ :=
  (rs.map (fun r => fillnaQ r.averageRating * (fillnaN r.totalReviews : ℚ))).sum

/-- App.py lines 181-185: the weighted mean, absent unless `total_reviews_sum > 0`. -/
def weighted_mean (rs : List ProductRecord) : Option ℚ :=
  if 0 < total_reviews_sum rs then
    some (round3 (weighted_val rs / (total_reviews_sum rs : ℚ)))
  else none

/-- Arithmetic mean of a list, the spec's wording for UnweightedMean. -/
def arithMean (l : List ℚ) : ℚ := l.sum / (l.length : ℚ)

lemma roundHalfEven_intCast (n : ℤ) : roundHalfEven (n : ℚ) = n := by
  unfold roundHalfEven
  rw [Int.floor_intCast]
  norm_num

lemma round3_intCast (n : ℤ) : round3 (n : ℚ) = n := by
  unfold round3
  have h : ((n : ℚ) * 1000) = ((n * 1000 : ℤ) : ℚ) := by push_cast; ring
  rw [h, roundHalfEven_intCast]
  push_cast
  field_simp

lemma roundHalfEven_bounds (x : ℚ) :
    x - 1/2 ≤ (roundHalfEven x : ℚ) ∧ (roundHalfEven x : ℚ) ≤ x + 1/2 := by
  have h1 : ((⌊x⌋ : ℚ)) ≤ x := Int.floor_le x
  have h2 : x < (⌊x⌋ : ℚ) + 1 := Int.lt_floor_add_one x
  unfold roundHalfEven
  split
  · next h => constructor <;> [push_cast; push_cast] <;> linarith
  · next h =>
    split
    · next h3 => constructor <;> push_cast <;> linarith
    · next h3 =>
      have he : x - (⌊x⌋ : ℚ) = 1/2 := by linarith
      split <;> constructor <;> push_cast <;> linarith

lemma round3_bounds (q : ℚ) : q - 1/2000 ≤ round3 q ∧ round3 q ≤ q + 1/2000 := by
  obtain ⟨h1, h2⟩ := roundHalfEven_bounds (q * 1000)
  unfold round3
  constructor <;> [linarith; linarith]

lemma total_reviews_sum_eq (rs : List ProductRecord) :
    total_reviews_sum rs = (reviewCounts rs).sum := by
  unfold total_reviews_sum
  split
  · rfl
  · next h =>
    rcases hc : reviewCounts rs with _ | ⟨a, l⟩
    · simp
    · rw [hc] at h; simp at h

/-- C1: UnweightedMean is absent exactly when every record's AverageRating is
null, and otherwise equals the arithmetic mean of exactly the non-null
AverageRating values, rounded to 3 decimal places. -/
theorem unweighted_mean_correct (rs : List ProductRecord) :
    (unweighted_mean rs = none ↔ ∀ r ∈ rs, r.averageRating = none) ∧
    (ratings rs ≠ [] → unweighted_mean rs = some (round3 (arithMean (ratings rs)))) := by
  have hiff : ratings rs = [] ↔ ∀ r ∈ rs, r.averageRating = none := by
    simp [ratings, List.filterMap_eq_nil_iff]
  constructor
  · rw [← hiff]
    unfold unweighted_mean
    split
    · next h =>
      simp only [reduceCtorEq, false_iff]
      intro hnil
      rw [hnil] at h
      simp at h
    · next h =>
      rcases hc : ratings rs with _ | ⟨a, l⟩
      · simp
      · rw [hc] at h; simp at h
  · intro hne
    unfold unweighted_mean arithMean
    rcases hc : ratings rs with _ | ⟨a, l⟩
    · exact absurd hc hne
    · simp

/-- C2: WeightedMean is the rounded quotient of the fillna(0) numerator by
the sum of the non-null TotalReviews values, and is absent exactly when that
denominator is 0. -/
theorem weighted_mean_correct (rs : List ProductRecord) :
    (weighted_mean rs = none ↔ (reviewCounts rs).sum = 0) ∧
    ((reviewCounts rs).sum ≠ 0 →
      weighted_mean rs = some (round3 (
        (rs.map (fun r => fillnaQ r.averageRating * (fillnaN r.totalReviews : ℚ))).sum /
        ((reviewCounts rs).sum : ℚ)))) := by
  have ht := total_reviews_sum_eq rs
  constructor
  · unfold weighted_mean
    rw [ht]
    split
    · next h => simp only [reduceCtorEq, false_iff]; omega
    · next h => simp only [true_iff]; omega
  · intro hne
    unfold weighted_mean weighted_val
    rw [ht]
    split
    · rfl
    · next h => omega

lemma mem_ratings (rs : List ProductRecord) (q : ℚ) :
    q ∈ ratings rs ↔ ∃ r ∈ rs, r.averageRating = some q := by
  simp [ratings, List.mem_filterMap]

lemma weighted_val_bounds (lo hi : ℚ) (rs : List ProductRecord)
    (hcov : ∀ r ∈ rs, 0 < fillnaN r.totalReviews → r.averageRating ≠ none)
    (hb : ∀ q ∈ ratings rs, lo ≤ q ∧ q ≤ hi) :
    lo * ((reviewCounts rs).sum : ℚ) ≤ weighted_val rs ∧
    weighted_val rs ≤ hi * ((reviewCounts rs).sum : ℚ) := by
  induction rs with
  | nil => simp [weighted_val, reviewCounts]
  | cons r rs ih =>
    have hcov2 : ∀ x ∈ rs, 0 < fillnaN x.totalReviews → x.averageRating ≠ none :=
      fun x hx => hcov x (List.mem_cons_of_mem r hx)
    have hb2 : ∀ q ∈ ratings rs, lo ≤ q ∧ q ≤ hi := by
      intro q hq
      apply hb
      rw [mem_ratings] at hq ⊢
      obtain ⟨x, hx, he⟩ := hq
      exact ⟨x, List.mem_cons_of_mem r hx, he⟩
    obtain ⟨ih1, ih2⟩ := ih hcov2 hb2
    have hterm : lo * (fillnaN r.totalReviews : ℚ) ≤ fillnaQ r.averageRating * (fillnaN r.totalReviews : ℚ) ∧
        fillnaQ r.averageRating * (fillnaN r.totalReviews : ℚ) ≤ hi * (fillnaN r.totalReviews : ℚ) := by
      rcases hn : r.totalReviews with _ | t
      · simp [fillnaN]
      · rcases Nat.eq_zero_or_pos t with h0 | hpos
        · simp [fillnaN, hn, h0]
        · have havg : r.averageRating ≠ none := by
            apply hcov r (List.mem_cons_self r rs)
            rw [hn]
            simpa [fillnaN] using hpos
          rcases ha : r.averageRating with _ | a
          · exact absurd ha havg
          · have hm : a ∈ ratings (r :: rs) := by
              rw [mem_ratings]
              exact ⟨r, List.mem_cons_self r rs, ha⟩
            obtain ⟨hlo, hhi⟩ := hb a hm
            have hnn : (0:ℚ) ≤ ((fillnaN (some t)) : ℚ) := by positivity
            simp only [ha, fillnaQ]
            exact ⟨mul_le_mul_of_nonneg_right hlo hnn, mul_le_mul_of_nonneg_right hhi hnn⟩
    have hsum : ((reviewCounts (r :: rs)).sum : ℚ) =
        (fillnaN r.totalReviews : ℚ) + ((reviewCounts rs).sum : ℚ) := by
      rcases hn : r.totalReviews with _ | t <;>
        simp [reviewCounts, List.filterMap_cons, hn, fillnaN]
    have hwv : weighted_val (r :: rs) =
        fillnaQ r.averageRating * (fillnaN r.totalReviews : ℚ) + weighted_val rs := by
      simp [weighted_val]
    rw [hwv, hsum]
    constructor
    · nlinarith [hterm.1, ih1]
    · nlinarith [hterm.2, ih2]

/-- Record list refuting C3 as stated: one record with a null AverageRating
but 3 reviews, one with AverageRating 4 and 1 review. -/
def cexRecords : List ProductRecord :=
  [⟨"A", none, none, none, some 3, none, none, none, none, none⟩,
   ⟨"B", none, none, some 4, some 1, some 0, some 0, some 0, some 0, some 0⟩]

/-- C3 counterexample: `cexRecords` has TotalReviewsSum 4 > 0 and its only
non-null AverageRating is 4 (so min = max = 4), yet the computed WeightedMean
is 1, far below the minimum: the fillna(0) numerator counts the null-rating
record's reviews in the denominator. -/
theorem weighted_mean_bound_cex :
    0 < total_reviews_sum cexRecords ∧
    ratings cexRecords = [4] ∧
    ¬ (∀ w, weighted_mean cexRecords = some w → 4 ≤ w ∧ w ≤ 4) := by
  refine ⟨by norm_num [total_reviews_sum, reviewCounts, cexRecords, List.filterMap_cons],
          by norm_num [ratings, cexRecords, List.filterMap_cons], ?_⟩
  intro hall
  have h1 : round3 1 = 1 := by
    have h := round3_intCast 1
    norm_num at h
    exact h
  have hwm : weighted_mean cexRecords = some 1 := by
    have h4 : total_reviews_sum cexRecords = 4 := by
      norm_num [total_reviews_sum, reviewCounts, cexRecords, List.filterMap_cons]
    have hv : weighted_val cexRecords = 4 := by
      norm_num [weighted_val, cexRecords, fillnaQ, fillnaN]
    unfold weighted_mean
    rw [h4, hv]
    norm_num [h1]
  obtain ⟨hle, _⟩ := hall 1 hwm
  norm_num at hle

/-- C3 amended: the absence rule holds as stated, and the sanity bound holds
once (a) records carrying positive review counts are required to have a
non-null AverageRating (the code otherwise counts their reviews in the
denominator while contributing 0 to the numerator), and (b) the interval is
widened by the 3-decimal rounding step's half, 1/2000. -/
theorem weighted_mean_sanity (rs : List ProductRecord)
    (hcov : ∀ r ∈ rs, 0 < fillnaN r.totalReviews → r.averageRating ≠ none)
    (lo hi : ℚ) (hb : ∀ q ∈ ratings rs, lo ≤ q ∧ q ≤ hi) :
    (total_reviews_sum rs = 0 → weighted_mean rs = none) ∧
    (∀ w, weighted_mean rs = some w → lo - 1/2000 ≤ w ∧ w ≤ hi + 1/2000) := by
  constructor
  · intro h0
    unfold weighted_mean
    rw [h0]
    simp
  · intro w hw
    unfold weighted_mean at hw
    split at hw
    · next hpos =>
      obtain ⟨hv1, hv2⟩ := weighted_val_bounds lo hi rs hcov hb
      rw [total_reviews_sum_eq] at hpos hw
      have hS : (0:ℚ) < ((reviewCounts rs).sum : ℚ) := by exact_mod_cast hpos
      have hx1 : lo ≤ weighted_val rs / ((reviewCounts rs).sum : ℚ) := (le_div_iff₀ hS).mpr hv1
      have hx2 : weighted_val rs / ((reviewCounts rs).sum : ℚ) ≤ hi := (div_le_iff₀ hS).mpr hv2
      obtain ⟨hr1, hr2⟩ := round3_bounds (weighted_val rs / ((reviewCounts rs).sum : ℚ))
      have hw2 : w = round3 (weighted_val rs / ((reviewCounts rs).sum : ℚ)) := (Option.some.inj hw).symm
      rw [hw2]
      constructor <;> linarith
    · simp at hw

/-- Witness list for the amended C3: a single record with rating 4 and 10
reviews. -/
def sanityRecords : List ProductRecord :=
  [⟨"W", none, none, some 4, some 10, some 0, some 0, some 0, some 0, some 0⟩]

/-- Witness for the amended C3 at a concrete record list. -/
theorem weighted_mean_sanity_witness :
    (total_reviews_sum sanityRecords = 0 → weighted_mean sanityRecords = none) ∧
    (∀ w, weighted_mean sanityRecords = some w → 4 - 1/2000 ≤ w ∧ w ≤ 4 + 1/2000) :=
  weighted_mean_sanity sanityRecords
    (by intro r hr; simp [sanityRecords] at hr; subst hr; simp)
    4 4
    (by intro q hq; simp [ratings, sanityRecords, List.filterMap_cons] at hq; simp [hq])

/-- Python str.strip(): drop whitespace from both ends (the identifiers and
cell values this app handles are ASCII). -/
def pyStrip (s : String) : String :=
  ⟨((s.toList.dropWhile Char.isWhitespace).reverse.dropWhile Char.isWhitespace).reverse⟩

/-- Python str.upper() on the ASCII identifiers this app handles. -/
def pyUpper (s : String) : String := ⟨s.toList.map Char.toUpper⟩

/-- Python str.lower() on the ASCII specification names this app handles. -/
def pyLower (s : String) : String := ⟨s.toList.map Char.toLower⟩

/-- Python's `in` operator on strings: substring containment. -/
def pyContains (hay needle : String) : Bool :=
  hay.toList.tails.any (fun t => needle.toList.isPrefixOf t)

/-- The spec's normalized identifier: trimmed then upper-cased. -/
def normalizeId (s : String) : String := pyUpper (pyStrip s)

/-- The key sent to the remote API for a raw input line: app.py line 30
strips it, line 87 passes it unchanged as the `asin` request parameter. -/
def remoteKey (a : String) : String := pyStrip a

/-- The key used for the override-mapping lookup: app.py line 117 strips and
upper-cases the (already stripped) identifier. -/
def overrideKey (a : String) : String := normalizeId (remoteKey a)

/-- C9 counterexample: for the input "b0d" the remote lookup key is "b0d"
while the normalized identifier is "B0D", so the normalized (trimmed and
upper-cased) form is not the key used for the remote product lookup. -/
theorem identifier_keys_cex : remoteKey "b0d" ≠ normalizeId "b0d" := by decide

/-- C9 amended: the remote lookup uses the trimmed identifier, the override
lookup uses the trimmed-then-upper-cased identifier, and the two coincide
with the normalized form whenever the input is already trimmed and
upper-case. -/
theorem identifier_keys (a : String) :
    remoteKey a = pyStrip a ∧ overrideKey a = normalizeId (remoteKey a) ∧
    (pyStrip a = a → pyUpper a = a →
      remoteKey a = normalizeId a ∧ overrideKey a = normalizeId a) := by
  refine ⟨rfl, rfl, fun h1 h2 => ?_⟩
  have hn : normalizeId a = a := by unfold normalizeId; rw [h1, h2]
  have hr : remoteKey a = a := h1
  refine ⟨by rw [hr, hn], ?_⟩
  show normalizeId (remoteKey a) = normalizeId a
  rw [hr]

/-- One entry of the response's `specifications` list: a name and a nullable
value (`spec.get("name", "")` and `spec.get("value")`, app.py lines 105-106). -/
structure SpecEntry where
  name : String
  value : Option String
deriving DecidableEq

/-- App.py line 109: the size-indicating tokens. -/
def sizeToken (name : String) : Bool :=
  pyContains (pyLower name) "rozmiar" || pyContains (pyLower name) "size"

/-- App.py line 112: the color/design-indicating tokens. -/
def designToken (name : String) : Bool :=
  pyContains (pyLower name) "colour" || pyContains (pyLower name) "color" ||
    pyContains (pyLower name) "dedesignsen"

/-- Python truthiness of the nullable string accumulators `design`/`size`:
`None` and the empty string are falsy (`if not size`, app.py lines 110/113). -/
def truthy : Option String → Bool
  | none => false
  | some s => s != ""

/-- One iteration of the specifications loop (app.py lines 104-114) on the
accumulator pair (design, size). -/
def extractStep (acc : Option String × Option String) (sp : SpecEntry) :
    Option String × Option String :=
  match sp.value with
  | none => acc
  | some v =>
    (if designToken sp.name && !(truthy acc.1) then some v else acc.1,
     if sizeToken sp.name && !(truthy acc.2) then some v else acc.2)

/-- The whole specifications loop, starting from (None, None). -/
def extractAttrs (specs : List SpecEntry) : Option String × Option String :=
  specs.foldl extractStep (none, none)

/-- Modelled from the spec's words for C5: the value of the first
specification, in list order, with a non-null value whose name matches the
token test. -/
def specFirstMatch (tok : String → Bool) (specs : List SpecEntry) : Option String :=
  (specs.find? (fun sp => sp.value.isSome && tok sp.name)).bind (fun sp => sp.value)

/-- The value of the first specification whose value is truthy (non-null and
non-empty) and whose name matches the token test. -/
def firstTruthyMatch (tok : String → Bool) (specs : List SpecEntry) : Option String :=
  (specs.find? (fun sp => truthy sp.value && tok sp.name)).bind (fun sp => sp.value)

/-- Whether any specification has a non-null value and a matching name. -/
def anyMatch (tok : String → Bool) (specs : List SpecEntry) : Bool :=
  specs.any (fun sp => sp.value.isSome && tok sp.name)

/-- What one extracted field resolves to from an intermediate accumulator. -/
def resolveField (tok : String → Bool) (cur : Option String) (specs : List SpecEntry) :
    Option String :=
  if truthy cur then cur
  else
    match firstTruthyMatch tok specs with
    | some v => some v
    | none => if anyMatch tok specs then some "" else cur

lemma resolveField_cons (tok : String → Bool) (c : Option String) (sp : SpecEntry)
    (rest : List SpecEntry) :
    resolveField tok c (sp :: rest) =
      resolveField tok
        (match sp.value with
         | none => c
         | some v => if tok sp.name && !(truthy c) then some v else c) rest := by
  rcases hv : sp.value with _ | v
  · simp [resolveField, firstTruthyMatch, anyMatch, List.find?_cons, hv, truthy]
  · cases ht : tok sp.name
    · simp [resolveField, firstTruthyMatch, anyMatch, List.find?_cons, hv, ht]
    · cases htr : truthy c
      · by_cases hve : v = ""
        · subst hve
          have hft : firstTruthyMatch tok (sp :: rest) = firstTruthyMatch tok rest := by
            simp [firstTruthyMatch, List.find?_cons, hv, truthy]
          have ham : anyMatch tok (sp :: rest) = true := by
            simp [anyMatch, hv, ht]
          rw [resolveField, resolveField, hft, ham, htr]
          cases hf : firstTruthyMatch tok rest
          · simp [htr, truthy, ht, hv, anyMatch]
          · simp [htr, truthy, ht, hv]
        · have htv : truthy (some v) = true := by simp [truthy, hve]
          have hft : firstTruthyMatch tok (sp :: rest) = some v := by
            simp [firstTruthyMatch, List.find?_cons, hv, htv, ht]
          rw [resolveField, resolveField, hft, htr]
          simp [ht, htr, htv, hv]
      · rw [resolveField, resolveField, htr]
        simp [ht, htr, hv]

lemma foldl_extract (specs : List SpecEntry) :
    ∀ d s : Option String,
      specs.foldl extractStep (d, s) =
        (resolveField designToken d specs, resolveField sizeToken s specs) := by
  induction specs with
  | nil =>
    intro d s
    simp [resolveField, firstTruthyMatch, anyMatch]
  | cons sp rest ih =>
    intro d s
    rw [List.foldl_cons, resolveField_cons, resolveField_cons]
    rcases hv : sp.value with _ | v
    · simp only [extractStep, hv]
      exact ih d s
    · simp only [extractStep, hv]
      exact ih _ _

/-- C5 amended: each extracted field is the value of the first specification
whose (lower-cased) name contains a matching token and whose value is
non-null and non-empty; when every matching specification carries the empty
string the field ends as the empty string, and with no match it stays null.
An empty-string first match does not win: the loop's truthiness test lets a
later matching value overwrite it. -/
theorem extract_attrs_first_truthy (specs : List SpecEntry) :
    extractAttrs specs =
      ((match firstTruthyMatch designToken specs with
        | some v => some v
        | none => if anyMatch designToken specs then some "" else none),
       (match firstTruthyMatch sizeToken specs with
        | some v => some v
        | none => if anyMatch sizeToken specs then some "" else none)) := by
  rw [extractAttrs, foldl_extract specs none none]
  rw [resolveField, resolveField]
  simp [truthy]

/-- Specification list refuting C5 as stated: the first size-named
specification carries the empty string. -/
def cexSpecs : List SpecEntry := [⟨"size", some ""⟩, ⟨"size", some "L"⟩]

/-- C5 counterexample: the first specification (in list order, with a
non-null value) whose name contains a size token has the value "", but the
code extracts "L" from the second matching specification, so first-match-wins
fails for empty-string values. -/
theorem extract_attrs_cex :
    specFirstMatch sizeToken cexSpecs = some "" ∧
    (extractAttrs cexSpecs).2 = some "L" ∧
    ((some "" : Option String) ≠ some "L") := by
  refine ⟨by decide, by decide, by decide⟩

/-- The product object of a parsed response: `product.rating` (none models a
missing `rating` key, app.py line 128), `product.ratings_total`,
`product.specifications`, and the `rating_breakdown` bucket counts with the
`.get("count", 0)` defaults already applied (a missing bucket is 0). -/
structure RawProduct where
  rating : Option ℚ
  ratingsTotal : Option ℕ
  specifications : List SpecEntry
  fiveStarCount : ℕ
  fourStarCount : ℕ
  threeStarCount : ℕ
  twoStarCount : ℕ
  oneStarCount : ℕ
deriving DecidableEq

/-- A parsed response body: `data.get("product", {})`, with `none` modelling
an absent or empty product object (`if product:` is falsy on both). -/
structure ResponseData where
  product : Option RawProduct
deriving DecidableEq

/-- One override mapping entry: the Design and Size cells of a row of
ASINs.csv; `none` models a missing (NaN) cell. -/
structure OverrideEntry where
  design : Option String
  size : Option String
deriving DecidableEq

/-- App.py lines 122-126: one field of the override entry is applied exactly
when it is non-NaN and non-blank after stripping; the original (unstripped)
override value is what gets assigned. -/
def overrideField (m : Option String) (cur : Option String) : Option String :=
  match m with
  | none => cur
  | some v => if pyStrip v = "" then cur else some v

/-- App.py lines 116-126: apply the override entry, when present, to the
API-derived design/size pair. -/
def applyOverride (entry : Option OverrideEntry) (design size : Option String) :
    Option String × Option String :=
  match entry with
  | none => (design, size)
  | some e => (overrideField e.design design, overrideField e.size size)

/-- The API-derived design/size pair: the specifications scan when a product
object is present (app.py lines 103-114), else the (None, None) defaults. -/
def apiAttrs (data : ResponseData) : Option String × Option String :=
  match data.product with
  | some p => extractAttrs p.specifications
  | none => (none, none)

/-- The record built from a successfully parsed response (app.py lines
97-147): attribute extraction, override precedence, then the rating branch. -/
def buildRecord (mapping : String → Option OverrideEntry) (asin : String)
    (data : ResponseData) : ProductRecord :=
  let ov := applyOverride (mapping (normalizeId asin)) (apiAttrs data).1 (apiAttrs data).2
  match data.product with
  | none => ⟨asin, ov.1, ov.2, none, none, none, none, none, none, none⟩
  | some p =>
    match p.rating with
    | none => ⟨asin, ov.1, ov.2, none, none, none, none, none, none, none⟩
    | some rt =>
      ⟨asin, ov.1, ov.2, some rt, p.ratingsTotal, some p.fiveStarCount,
       some p.fourStarCount, some p.threeStarCount, some p.twoStarCount,
       some p.oneStarCount⟩

/-- The outcome of `requests.get` plus `r.json()` for one identifier: a
parsed body, or an exception. -/
inductive FetchOutcome
  | ok (data : ResponseData)
  | error (msg : String)
deriving DecidableEq

/-- The record and the optional error notice one loop iteration produces:
the `except` branch (app.py lines 148-154) shows a per-item error and
appends an all-null record. -/
def processItem (mapping : String → Option OverrideEntry) (asin : String) :
    FetchOutcome → ProductRecord × Option String
  | .ok data => (buildRecord mapping asin data, none)
  | .error e => (⟨asin, none, none, none, none, none, none, none, none, none⟩, some e)

/-- An observable step of the batch loop: issuing the fetch for one
identifier, or the fixed `time.sleep(0.5)` pacing delay (app.py line 157). -/
inductive Event
  | fetch (asin : String)
  | sleep (d : ℚ)
deriving DecidableEq

/-- The batch loop (app.py lines 75-157): one strictly sequential pass over
the identifiers, collecting the records in input order, the per-item error
notices, and the fetch/sleep event trace. -/
def runBatch (mapping : String → Option OverrideEntry) :
    List (String × FetchOutcome) →
      List ProductRecord × List (String × String) × List Event
  | [] => ([], [], [])
  | (a, o) :: rest =>
    let pr := processItem mapping a o
    let acc := runBatch mapping rest
    (pr.1 :: acc.1,
     (match pr.2 with
      | some e => (a, e) :: acc.2.1
      | none => acc.2.1),
     Event.fetch a :: Event.sleep (1/2) :: acc.2.2)

lemma buildRecord_attrs (mapping : String → Option OverrideEntry) (asin : String)
    (data : ResponseData) :
    ((buildRecord mapping asin data).design, (buildRecord mapping asin data).size) =
      applyOverride (mapping (normalizeId asin)) (apiAttrs data).1 (apiAttrs data).2 := by
  rcases hp : data.product with _ | p
  · simp [buildRecord, hp]
  · rcases hr : p.rating with _ | rt <;> simp [buildRecord, hp, hr]

/-- C4: when the normalized identifier has an override entry, a Design
(resp. Size) override value that is non-empty after stripping replaces the
API-derived value in the final record, while an empty, blank or missing
override value leaves the API-derived value in place. -/
theorem override_precedence (mapping : String → Option OverrideEntry) (asin : String)
    (data : ResponseData) (e : OverrideEntry)
    (he : mapping (normalizeId asin) = some e) :
    (∀ v, e.design = some v → pyStrip v ≠ "" →
      (buildRecord mapping asin data).design = some v) ∧
    ((e.design = none ∨ ∃ v, e.design = some v ∧ pyStrip v = "") →
      (buildRecord mapping asin data).design = (apiAttrs data).1) ∧
    (∀ v, e.size = some v → pyStrip v ≠ "" →
      (buildRecord mapping asin data).size = some v) ∧
    ((e.size = none ∨ ∃ v, e.size = some v ∧ pyStrip v = "") →
      (buildRecord mapping asin data).size = (apiAttrs data).2) := by
  have hpair := buildRecord_attrs mapping asin data
  rw [he] at hpair
  simp only [applyOverride] at hpair
  have hd : (buildRecord mapping asin data).design = overrideField e.design (apiAttrs data).1 :=
    congrArg Prod.fst hpair
  have hs : (buildRecord mapping asin data).size = overrideField e.size (apiAttrs data).2 :=
    congrArg Prod.snd hpair
  refine ⟨?_, ?_, ?_, ?_⟩
  · intro v hv hne
    rw [hd, hv]
    simp [overrideField, hne]
  · rintro (hv | ⟨v, hv, hemp⟩)
    · rw [hd, hv]
      rfl
    · rw [hd, hv]
      simp [overrideField, hemp]
  · intro v hv hne
    rw [hs, hv]
    simp [overrideField, hne]
  · rintro (hv | ⟨v, hv, hemp⟩)
    · rw [hs, hv]
      rfl
    · rw [hs, hv]
      simp [overrideField, hemp]

lemma runBatch_length (mapping : String → Option OverrideEntry)
    (items : List (String × FetchOutcome)) :
    (runBatch mapping items).1.length = items.length := by
  induction items with
  | nil => rfl
  | cons it rest ih =>
    rcases it with ⟨a, o⟩
    simp [runBatch, ih]

/-- C6: an identifier whose fetch raises an exception yields, at its own
position in the output, a record carrying the identifier with every other
field null; the error is recorded as a per-item notice; and every input
identifier still yields exactly one record, so a failing item never stops
the batch. -/
theorem fetch_error_degrades (mapping : String → Option OverrideEntry)
    (items : List (String × FetchOutcome)) (i : ℕ) (a e : String)
    (h : items[i]? = some (a, FetchOutcome.error e)) :
    (runBatch mapping items).1.length = items.length ∧
    (runBatch mapping items).1[i]? =
      some ⟨a, none, none, none, none, none, none, none, none, none⟩ ∧
    (a, e) ∈ (runBatch mapping items).2.1 := by
  refine ⟨runBatch_length mapping items, ?_⟩
  induction items generalizing i with
  | nil => simp at h
  | cons it rest ih =>
    rcases it with ⟨b, o⟩
    cases i with
    | zero =>
      rw [List.getElem?_cons_zero] at h
      obtain ⟨hb, ho⟩ : b = a ∧ o = FetchOutcome.error e := by simpa using h
      subst hb
      subst ho
      constructor
      · simp [runBatch, processItem]
      · simp [runBatch, processItem]
    | succ n =>
      rw [List.getElem?_cons_succ] at h
      obtain ⟨ih1, ih2⟩ := ih n h
      constructor
      · simpa [runBatch] using ih1
      · rcases hp : (processItem mapping b o).2 with _ | e2
        · simpa [runBatch, hp] using ih2
        · simp [runBatch, hp]
          exact Or.inr ih2

lemma processItem_asin (mapping : String → Option OverrideEntry) (a : String)
    (o : FetchOutcome) : ((processItem mapping a o).1).asin = a := by
  cases o with
  | ok data =>
    rcases hp : data.product with _ | p
    · simp [processItem, buildRecord, hp]
    · rcases hr : p.rating with _ | rt <;> simp [processItem, buildRecord, hp, hr]
  | error e => rfl

/-- C7: the batch runner yields exactly one record per input identifier
(duplicates are not removed), the i-th record carries the i-th identifier,
and the event trace is the strictly sequential concatenation, over the input
order, of a fetch followed by the fixed 0.5 pacing delay for every item,
successful or failed. -/
theorem batch_runner_contract (mapping : String → Option OverrideEntry)
    (items : List (String × FetchOutcome)) :
    (runBatch mapping items).1.length = items.length ∧
    (∀ i : ℕ, ((runBatch mapping items).1[i]?).map (fun r => r.asin) =
      (items[i]?).map (fun it => it.1)) ∧
    (runBatch mapping items).2.2 =
      (items.map (fun it => [Event.fetch it.1, Event.sleep (1/2)])).flatten := by
  refine ⟨runBatch_length mapping items, ?_, ?_⟩
  · intro i
    induction items generalizing i with
    | nil => simp [runBatch]
    | cons it rest ih =>
      rcases it with ⟨b, o⟩
      cases i with
      | zero => simp [runBatch, processItem_asin]
      | succ n => simpa [runBatch] using ih n
  · induction items with
    | nil => simp [runBatch]
    | cons it rest ih =>
      rcases it with ⟨b, o⟩
      simp [runBatch, ih]

/-- One parsed row of the mapping file after the header/column inference of
app.py lines 38-58: the identifier cell plus nullable Design/Size cells. -/
structure MapRow where
  asin : String
  design : Option String
  size : Option String
deriving DecidableEq

/-- Python dict insertion: replace the value at an existing key in place,
else append the new binding at the end. -/
def dictInsert : List (String × OverrideEntry) → String → OverrideEntry →
    List (String × OverrideEntry)
  | [], k, v => [(k, v)]
  | p :: rest, k, v => if p.1 = k then (k, v) :: rest else p :: dictInsert rest k v

/-- Python dict lookup, `mapping_dict.get(key)`. -/
def dictLookup (m : List (String × OverrideEntry)) (k : String) : Option OverrideEntry :=
  (m.find? (fun p => p.1 == k)).map (fun p => p.2)

/-- One row's effect while building the mapping (app.py lines 60-62): the
identifier cell is normalized and the row's Design/Size become its entry;
with a duplicated identifier the pandas `to_dict` keeps the last row, like a
repeated dict insertion. -/
def mappingStep (acc : List (String × OverrideEntry)) (row : MapRow) :
    List (String × OverrideEntry) :=
  dictInsert acc (normalizeId row.asin) ⟨row.design, row.size⟩

/-- App.py line 62: the override mapping built from the parsed rows. -/
def buildMapping (rows : List MapRow) : List (String × OverrideEntry) :=
  rows.foldl mappingStep []

/-- What one attempt to read and parse the mapping file produced, inside the
`os.path.exists` guard (app.py lines 35-66). -/
inductive ParseOutcome
  | failure (msg : String)
  | success (rows : List MapRow)

/-- The state of the mapping file on disk. -/
inductive FileState
  | missing
  | present (outcome : ParseOutcome)

/-- What the loader leaves behind: `mapping_dict`, `mapping_loaded`, and the
text of the `st.warning` call if one was issued. -/
structure LoadResult where
  mapping : List (String × OverrideEntry)
  loaded : Bool
  warning : Option String

/-- App.py lines 32-66: the mapping starts empty; a missing file leaves it
empty silently; a parse failure leaves it empty and warns; success installs
the built mapping. -/
def loadMapping : FileState → LoadResult
  | .missing => ⟨[], false, none⟩
  | .present (.failure e) => ⟨[], false, some e⟩
  | .present (.success rows) => ⟨buildMapping rows, true, none⟩

/-- C8: the Override Loader never aborts (it is a total function into
LoadResult); a missing file gives an empty mapping and no warning; a parse
failure gives an empty mapping and a warning; the warning's presence
distinguishes exactly the parse-failure case. -/
theorem override_loader_safe :
    (loadMapping FileState.missing = ⟨[], false, none⟩) ∧
    (∀ e, loadMapping (FileState.present (ParseOutcome.failure e)) = ⟨[], false, some e⟩) ∧
    (∀ fs, (loadMapping fs).warning.isSome ↔
      ∃ e, fs = FileState.present (ParseOutcome.failure e)) := by
  refine ⟨rfl, fun e => rfl, fun fs => ?_⟩
  rcases fs with _ | o
  · simp [loadMapping]
  · rcases o with e | rows <;> simp [loadMapping]

lemma dictLookup_cons (p : String × OverrideEntry)
    (rest : List (String × OverrideEntry)) (j : String) :
    dictLookup (p :: rest) j = if p.1 = j then some p.2 else dictLookup rest j := by
  rw [dictLookup, List.find?_cons]
  by_cases h : p.1 = j
  · simp [h]
  · rw [beq_eq_false_iff_ne.mpr h]
    simp [h, dictLookup]

lemma dictLookup_insert (m : List (String × OverrideEntry)) (k j : String)
    (v : OverrideEntry) :
    dictLookup (dictInsert m k v) j = if j = k then some v else dictLookup m j := by
  induction m with
  | nil =>
    show dictLookup [(k, v)] j = if j = k then some v else dictLookup [] j
    rw [dictLookup_cons]
    by_cases hj : j = k
    · simp [hj]
    · rw [if_neg (fun h => hj h.symm), if_neg hj]
  | cons p rest ih =>
    by_cases hp : p.1 = k
    · rw [show dictInsert (p :: rest) k v = (k, v) :: rest from by simp [dictInsert, hp]]
      rw [dictLookup_cons, dictLookup_cons]
      by_cases hj : j = k
      · simp [hj]
      · rw [if_neg (show ¬ ((k, v).1 = j) from fun h => hj h.symm), if_neg hj,
          if_neg (show ¬ (p.1 = j) from fun h => hj ((hp.symm.trans h).symm))]
    · rw [show dictInsert (p :: rest) k v = p :: dictInsert rest k v from by
        simp [dictInsert, hp]]
      rw [dictLookup_cons, dictLookup_cons]
      by_cases hpj : p.1 = j
      · have hj : ¬ j = k := fun h => hp (hpj.trans h)
        rw [if_pos hpj, if_neg hj, if_pos hpj]
      · rw [if_neg hpj, ih, if_neg hpj]

lemma mem_keys_dictInsert (m : List (String × OverrideEntry)) (k : String)
    (v : OverrideEntry) (j : String) :
    j ∈ (dictInsert m k v).map Prod.fst ↔ j = k ∨ j ∈ m.map Prod.fst := by
  induction m with
  | nil => simp [dictInsert]
  | cons p rest ih =>
    by_cases hp : p.1 = k
    · rw [show dictInsert (p :: rest) k v = (k, v) :: rest from by simp [dictInsert, hp]]
      simp [hp]
    · rw [show dictInsert (p :: rest) k v = p :: dictInsert rest k v from by
        simp [dictInsert, hp]]
      simp [ih]
      tauto

lemma nodup_keys_dictInsert (m : List (String × OverrideEntry)) (k : String)
    (v : OverrideEntry) (h : (m.map Prod.fst).Nodup) :
    ((dictInsert m k v).map Prod.fst).Nodup := by
  induction m with
  | nil => simp [dictInsert]
  | cons p rest ih =>
    rw [List.map_cons, List.nodup_cons] at h
    obtain ⟨h1, h2⟩ := h
    by_cases hp : p.1 = k
    · rw [show dictInsert (p :: rest) k v = (k, v) :: rest from by simp [dictInsert, hp]]
      rw [List.map_cons, List.nodup_cons]
      exact ⟨hp ▸ h1, h2⟩
    · rw [show dictInsert (p :: rest) k v = p :: dictInsert rest k v from by
        simp [dictInsert, hp]]
      rw [List.map_cons, List.nodup_cons]
      refine ⟨?_, ih h2⟩
      rw [mem_keys_dictInsert]
      rintro (hc | hc)
      · exact hp hc
      · exact h1 hc

lemma buildMapping_loop_nodup (rows : List MapRow)
    (m : List (String × OverrideEntry)) (h : (m.map Prod.fst).Nodup) :
    ((rows.foldl mappingStep m).map Prod.fst).Nodup := by
  induction rows generalizing m with
  | nil => simpa using h
  | cons r rest ih =>
    rw [List.foldl_cons]
    exact ih _ (nodup_keys_dictInsert _ _ _ h)

lemma buildMapping_loop_lookup (rows : List MapRow)
    (m : List (String × OverrideEntry)) (k : String) :
    dictLookup (rows.foldl mappingStep m) k =
      match (rows.filter (fun r => normalizeId r.asin == k)).getLast? with
      | some r => some ⟨r.design, r.size⟩
      | none => dictLookup m k := by
  induction rows generalizing m with
  | nil => simp
  | cons r rest ih =>
    rw [List.foldl_cons, ih]
    cases hl : (rest.filter (fun r2 => normalizeId r2.asin == k)).getLast? with
    | none =>
      have hnil : rest.filter (fun r2 => normalizeId r2.asin == k) = [] := by
        rwa [List.getLast?_eq_none_iff] at hl
      by_cases hk : normalizeId r.asin = k
      · rw [List.filter_cons_of_pos (by simp [hk]), hnil]
        simp only [List.getLast?_singleton]
        rw [mappingStep, dictLookup_insert, if_pos hk.symm]
      · rw [List.filter_cons_of_neg (by simp [hk]), hnil]
        simp only [List.getLast?_nil]
        rw [mappingStep, dictLookup_insert, if_neg (fun h => hk h.symm)]
    | some r2 =>
      obtain ⟨x, l, hxl⟩ : ∃ x l, rest.filter (fun r2 => normalizeId r2.asin == k) = x :: l := by
        cases hfl : rest.filter (fun r2 => normalizeId r2.asin == k) with
        | nil => rw [hfl] at hl; simp at hl
        | cons x l => exact ⟨x, l, rfl⟩
      by_cases hk : normalizeId r.asin = k
      · rw [List.filter_cons_of_pos (by simp [hk]), hxl, List.getLast?_cons_cons, ← hxl, hl]
      · rw [List.filter_cons_of_neg (by simp [hk]), hl]

/-- C10: loading an override file in which the same normalized identifier
occurs in several rows leaves the mapping with exactly one entry per key
(its key list has no duplicates) and the entry for any identifier holds the
Design and Size of the last row carrying it; earlier rows are discarded. -/
theorem mapping_last_row_wins (rows : List MapRow) (k : String) :
    ((buildMapping rows).map Prod.fst).Nodup ∧
    dictLookup (buildMapping rows) k =
      ((rows.filter (fun r => normalizeId r.asin == k)).getLast?).map
        (fun r => (⟨r.design, r.size⟩ : OverrideEntry)) := by
  refine ⟨buildMapping_loop_nodup rows [] (by simp), ?_⟩
  rw [buildMapping, buildMapping_loop_lookup]
  cases hl : (rows.filter (fun r => normalizeId r.asin == k)).getLast? with
  | none => rfl
  | some r => rfl

/-- One-record list for the C1 witness. -/
def uwRecords : List ProductRecord :=
  [⟨"U1", none, none, some 4, some 10, some 0, some 0, some 0, some 0, some 0⟩]

/-- Witness for C1 at a concrete one-record list. -/
theorem unweighted_mean_correct_witness :
    unweighted_mean uwRecords = some (round3 (arithMean (ratings uwRecords))) :=
  (unweighted_mean_correct uwRecords).2 (by simp [ratings, uwRecords])

/-- One-record list for the C2 witness. -/
def wmRecords : List ProductRecord :=
  [⟨"V1", none, none, some 4, some 10, some 0, some 0, some 0, some 0, some 0⟩]

/-- Witness for C2 at a concrete one-record list. -/
theorem weighted_mean_correct_witness :
    weighted_mean wmRecords = some (round3 (
      (wmRecords.map (fun r => fillnaQ r.averageRating * (fillnaN r.totalReviews : ℚ))).sum /
      ((reviewCounts wmRecords).sum : ℚ))) :=
  (weighted_mean_correct wmRecords).2 (by simp [reviewCounts, wmRecords])

/-- Override map holding one entry, for the C4 witness. -/
def wOverrideMap : String → Option OverrideEntry :=
  fun k => if k = "B0TEST" then some ⟨some "Red", some " "⟩ else none

/-- Witness for C4: with an override entry whose Design is "Red" and whose
Size is blank, the final record's Design is "Red" and its Size keeps the
API-derived value. -/
theorem override_precedence_witness :
    (buildRecord wOverrideMap "B0TEST" ⟨none⟩).design = some "Red" ∧
    (buildRecord wOverrideMap "B0TEST" ⟨none⟩).size = (apiAttrs ⟨none⟩).2 := by
  have h := override_precedence wOverrideMap "B0TEST" ⟨none⟩ ⟨some "Red", some " "⟩ (by decide)
  exact ⟨h.1 "Red" rfl (by decide), h.2.2.2 (Or.inr ⟨" ", rfl, by decide⟩)⟩

/-- Input items for the C6 witness: the second fetch fails. -/
def wItems : List (String × FetchOutcome) :=
  [("B1", FetchOutcome.ok ⟨some ⟨some 4, some 10, [], 1, 2, 3, 4, 5⟩⟩),
   ("B2", FetchOutcome.error "timeout")]

/-- Witness for C6 at a concrete two-item batch. -/
theorem fetch_error_degrades_witness :
    (runBatch (fun _ => none) wItems).1.length = wItems.length ∧
    (runBatch (fun _ => none) wItems).1[1]? =
      some ⟨"B2", none, none, none, none, none, none, none, none, none⟩ ∧
    ("B2", "timeout") ∈ (runBatch (fun _ => none) wItems).2.1 :=
  fetch_error_degrades (fun _ => none) wItems 1 "B2" "timeout" rfl
